import Mathlib

/-!
Shallow embedding of the runtime identification, resolution and activation
core of the `pyem` project (sources: `src/pyem/projects/runtimes.py`,
`src/pyem/venvs.py`, `src/pyem/procs.py`).

Strings are modelled as `List Char`.  Python string primitives used by the
code (`str.split(sep)`, `str.split(sep, 1)`, `str.strip()`, `str.lower()`)
are modelled by the `splitOnChar`, `splitOnce`, `pyStrip` and `lowerStr`
functions below; `str.lower` is modelled by `Char.toLower` mapwise (the
identity outside the basic latin letters, where Python also lowercases
other cased code points), the whitespace predicate shared by `str.strip`
and the regex class `\s` on `str` patterns (CPython's
`Py_UNICODE_ISSPACE`) by `isPySpace`, and the universal-newline
translation `Path.read_text` applies when reading the marker by
`univNewlines`.
-/

/-- Python `value.split(sep)` for a one-character separator: splits on every
occurrence; the result is never empty and `"".split(sep) == [""]`. -/
def splitOnChar (sep : Char) : List Char → List (List Char)
  | [] => [[]]
  | c :: rest =>
    match splitOnChar sep rest with
    | [] => [[]]
    | r :: rs => if c = sep then [] :: r :: rs else (c :: r) :: rs

/-- Python `value.split(sep, 1)`: at most one split, at the first occurrence
of the separator; yields a one-element list when the separator is absent. -/
def splitOnce (sep : Char) : List Char → List (List Char)
  | [] => [[]]
  | c :: rest =>
    if c = sep then [[], rest]
    else
      match splitOnce sep rest with
      | [] => [[c]]
      | r :: rs => (c :: r) :: rs

/-- The whitespace predicate `Py_UNICODE_ISSPACE` that CPython uses both
for `str.strip()` (with no argument) and for the regex class `\s` on
`str` patterns: U+0009–U+000D, U+001C–U+001F, the space, U+0085, U+00A0,
U+1680, U+2000–U+200A, U+2028, U+2029, U+202F, U+205F and U+3000. -/
def isPySpace (c : Char) : Bool :=
  let n := c.toNat
  (9 ≤ n && n ≤ 13) || (28 ≤ n && n ≤ 31) || n = 32 || n = 0x85 || n = 0xa0
    || n = 0x1680 || (0x2000 ≤ n && n ≤ 0x200a) || n = 0x2028 || n = 0x2029
    || n = 0x202f || n = 0x205f || n = 0x3000

/-- Python `value.strip()`: removes leading and trailing whitespace. -/
def pyStrip (cs : List Char) : List Char :=
  ((cs.dropWhile isPySpace).reverse.dropWhile isPySpace).reverse

/-- The universal-newline translation `Path.read_text` (text mode with the
default `newline=None`) applies to what is read: every `"\r\n"` pair and
every lone `"\r"` become `"\n"`. -/
def univNewlines : List Char → List Char
  | [] => []
  | ['\r'] => ['\n']
  | '\r' :: '\n' :: rest => '\n' :: univNewlines rest
  | '\r' :: c :: rest => '\n' :: univNewlines (c :: rest)
  | c :: rest => c :: univNewlines rest

/-- Python `value.lower()` (modelled on the ASCII range). -/
def lowerStr (cs : List Char) : List Char :=
  cs.map Char.toLower

/-- The fixed name of the runtime container directory
(`_VENV_CONTAINER_NAME = ".venvs"` in `runtimes.py`). -/
def _VENV_CONTAINER_NAME : List Char := ".venvs".toList

/-- The fixed name of the active-runtime marker
(`_VENV_MARKER_NAME = ".venv"` in `runtimes.py`). -/
def _VENV_MARKER_NAME : List Char := ".venv".toList

/-- The `_VirtualEnvironment` dataclass (aliased `Runtime` in the source):
carries only its root path.  Paths are modelled as `/`-joined component
strings relative to the project root.  Dataclass equality is equality of
the `root` field. -/
structure Runtime where
  root : List Char
  deriving DecidableEq

/-- Python `self.root.name`: the final path component of the root. -/
def Runtime.name (rt : Runtime) : List Char :=
  (splitOnChar '/' rt.root).getLastD []

/-- The `_QuintapletMatcher` helper class: four comparison parts plus a
hash part, all lowercased on construction (`__init__`). -/
structure _QuintapletMatcher where
  parts : List (List Char)
  hash : List Char
  deriving DecidableEq

/-- The `_QuintapletMatcher.__init__` constructor: lowercases every part
and the hash (`hash_` defaults to the empty string). -/
def _QuintapletMatcher.create (parts : List (List Char)) (hash_ : List Char) :
    _QuintapletMatcher :=
  ⟨parts.map lowerStr, lowerStr hash_⟩

/-- The `_QuintapletMatcher.from_alias` classmethod, for aliases that do not
name an existing interpreter file (the `_looks_like_path(aliasStr) and
os.path.isfile(aliasStr)` branch replaces the aliasStr with the output of an
out-of-process interpreter invocation and is outside the model): dispatches
on the dash-split part count to the `_from_1` .. `_from_5` constructors
(`_from_1` pads to `["", v, "", ""]`, `_from_2` to `v + ["", ""]`,
`_from_3` to `v[:2] + [""] + v[2:]`, `_from_4` uses the parts as-is,
`_from_5` separates the hash), and fails (`ValueError`) on any other
part count. -/
def _QuintapletMatcher.from_alias (aliasStr : List Char) :
    Option _QuintapletMatcher :=
  match splitOnChar '-' aliasStr with
  | [p1] => some (create [[], p1, [], []] [])
  | [p1, p2] => some (create [p1, p2, [], []] [])
  | [p1, p2, p3] => some (create [p1, p2, [], p3] [])
  | [p1, p2, p3, p4] => some (create [p1, p2, p3, p4] [])
  | [p1, p2, p3, p4, p5] => some (create [p1, p2, p3, p4] p5)
  | _ => none

/-- The generator expression in `_QuintapletMatcher.match`:
`all(a == b for a, b in zip(parts, self._parts) if a and b)` — pairs in
which either side is empty are skipped. -/
def zipMatch : List (List Char) → List (List Char) → Bool
  | a :: as_, b :: bs => if a = [] ∨ b = [] ∨ a = b then zipMatch as_ bs else false
  | _, _ => true

/-- The `_QuintapletMatcher.match` method, on the candidate runtime's name:
only names splitting into exactly five dash-separated parts are matchable;
the last part is popped as the candidate hash and compared exactly against
the matcher's (lowercased) hash when the latter is non-empty; the other
four parts are compared pairwise, skipping pairs with an empty side. -/
def _QuintapletMatcher.doesMatch (m : _QuintapletMatcher) (name : List Char) :
    Bool :=
  match splitOnChar '-' name with
  | [p1, p2, p3, p4, h] =>
    if m.hash ≠ [] ∧ m.hash ≠ h then false
    else zipMatch [p1, p2, p3, p4] m.parts
  | _ => false

/-- Composition used by `find_runtime`: whether an aliasStr's matcher exists
and matches the given runtime name. -/
def aliasMatchesName (aliasStr name : List Char) : Bool :=
  match _QuintapletMatcher.from_alias aliasStr with
  | some m => m.doesMatch name
  | none => false

/-- The exceptions raised by `find_runtime` (`NoRuntimeMatch` and
`MultipleRuntimeMatches` dataclasses). -/
inductive FindError where
  | noMatch (aliasStr : List Char) (tried : List Runtime)
  | multipleMatches (aliasStr : List Char) (found : List Runtime)
  deriving DecidableEq

/-- The `ProjectRuntimeManagementMixin.find_runtime` method, over the list
of runtimes the registry enumerates (`iter_runtimes`, assumed unchanged
between its two calls): builds the matcher (a `ValueError` becomes
`NoRuntimeMatch` with all enumerated runtimes as `tried`), filters the
registry, then fails on zero matches, returns the sole match, or fails
with all matches on more than one. -/
def find_runtime (aliasStr : List Char) (rts : List Runtime) :
    Except FindError Runtime :=
  match _QuintapletMatcher.from_alias aliasStr with
  | none => .error (.noMatch aliasStr rts)
  | some m =>
    match rts.filter (fun r => m.doesMatch r.name) with
    | [] => .error (.noMatch aliasStr rts)
    | [r] => .ok r
    | r1 :: r2 :: rest => .error (.multipleMatches aliasStr (r1 :: r2 :: rest))

/-- The possible resolved states of the marker path when it is a symbolic
link: a link whose target is an existing regular file (with the given
content), a link resolving to an existing directory (at the given path,
relative to the project root), or a dangling link. -/
inductive SymTarget where
  | toFile (content : List Char)
  | toDir (path : List Char)
  | broken
  deriving DecidableEq

/-- The state of the marker path `<project-root>/.venv`: absent, a regular
file with the given content, a directory, or a symbolic link. -/
inductive MarkerState where
  | absent
  | file (content : List Char)
  | dir
  | symlink (target : SymTarget)
  deriving DecidableEq

/-- A direct child of the runtime container `<project-root>/.venvs`, as
seen by `Path.iterdir`: its name, whether it is a directory (after
following links) and whether it is itself a symbolic link. -/
structure ContainerEntry where
  name : List Char
  isDir : Bool
  isSymlink : Bool
  deriving DecidableEq

/-- The filesystem state a project's runtime-management operations read and
write: the marker state and the direct children of the runtime container
(an absent container is modelled by an empty child list). -/
structure FS where
  marker : MarkerState
  entries : List ContainerEntry
  deriving DecidableEq

/-- Exceptions crossing the modelled operations: `ValueError` (tuple
unpacking in `get_active_runtime`), any `OSError` (file-system failures),
and the `RuntimeActive` dataclass raised by `remove_runtime`. -/
inductive PyErr where
  | valueError
  | osError
  | runtimeActive (rt : Runtime)
  deriving DecidableEq

/-- Python `self._runtime_container.joinpath(name).exists()` for a name
that is a direct child of the container.  `exists()` follows symbolic
links and additionally reports false for a dangling link, a state the
entry model does not represent; the theorems that rely on this function
restrict themselves to entries that are directories (`isDir`, which
follows links), for which `exists()` is true. -/
def FS.childExists (fs : FS) (n : List Char) : Bool :=
  fs.entries.any (fun e => e.name = n)

/-- The `ProjectRuntimeManagementMixin.iter_runtimes` method: one `Runtime`
per direct child of the container that is a directory. -/
def iter_runtimes (fs : FS) : List Runtime :=
  (fs.entries.filter (fun e => e.isDir)).map
    (fun e => ⟨_VENV_CONTAINER_NAME ++ '/' :: e.name⟩)

/-- The regular-file branch of `get_active_runtime`: read the marker
(`read_text` applies universal-newline translation to the stored
content), strip it, unpack `content.split("/", 1)` into a prefix and a
name (raising `ValueError` when there is no `/` to split on), reject a
prefix other than the container name, reject a non-existent runtime
directory, and otherwise return the runtime at `<container>/<name>`. -/
def readMarkerFile (fs : FS) (content : List Char) :
    Except PyErr (Option Runtime) :=
  match splitOnce '/' (pyStrip (univNewlines content)) with
  | [pfx, n] =>
    if pfx ≠ _VENV_CONTAINER_NAME then .ok none
    else if fs.childExists n then .ok (some ⟨_VENV_CONTAINER_NAME ++ '/' :: n⟩)
    else .ok none
  | _ => .error .valueError

/-- Python `self._runtime_container in path.parents` for a resolved
symlink target: the target lies strictly below the container. -/
def underContainer (p : List Char) : Bool :=
  match splitOnChar '/' p with
  | c :: rest => c = _VENV_CONTAINER_NAME ∧ rest ≠ []
  | [] => false

/-- The `ProjectRuntimeManagementMixin.get_active_runtime` method.
`Path.is_file` follows symbolic links, so both a regular marker file and a
link to a regular file are read as text; otherwise, a symbolic link is
accepted only if it resolves to a directory strictly below the runtime
container; every remaining state means no active runtime. -/
def get_active_runtime (fs : FS) : Except PyErr (Option Runtime) :=
  match fs.marker with
  | .file c => readMarkerFile fs c
  | .symlink (.toFile c) => readMarkerFile fs c
  | .symlink (.toDir p) => if underContainer p then .ok (some ⟨p⟩) else .ok none
  | .symlink .broken => .ok none
  | .dir => .ok none
  | .absent => .ok none

/-- The `ProjectRuntimeManagementMixin.activate_runtime` method: open the
marker for writing (an `OSError` when the marker path is a directory or a
link to one; a write through a link to a file, or the creation of the
target of a dangling link, otherwise) and write
`f"<container-name>/<runtime-name>"`; `newline="\n"` leaves any written
`"\n"` untranslated, and no newline is part of the written text. -/
def activate_runtime (fs : FS) (rt : Runtime) : Except PyErr FS :=
  let content := _VENV_CONTAINER_NAME ++ '/' :: rt.name
  match fs.marker with
  | .dir => .error .osError
  | .symlink (.toDir _) => .error .osError
  | .symlink (.toFile _) => .ok { fs with marker := .symlink (.toFile content) }
  | .symlink .broken => .ok { fs with marker := .symlink (.toFile content) }
  | .file _ => .ok { fs with marker := .file content }
  | .absent => .ok { fs with marker := .file content }

/-- The `ProjectRuntimeManagementMixin.deactivate_runtime` method:
`Path.unlink` on the marker; an `OSError` when the marker is absent
(`FileNotFoundError`) or a directory (`IsADirectoryError`), and removal of
the file or of the link itself otherwise. -/
def deactivate_runtime (fs : FS) : Except PyErr FS :=
  match fs.marker with
  | .absent => .error .osError
  | .dir => .error .osError
  | _ => .ok { fs with marker := .absent }

/-- A runtime root of the form `<container>/<name>` with a slash-free
name, i.e. a direct child of the runtime container; deletion operations
are modelled only at such paths. -/
def childName (root : List Char) : Option (List Char) :=
  match splitOnChar '/' root with
  | [c0, n] => if c0 = _VENV_CONTAINER_NAME then some n else none
  | _ => none

/-- The `ProjectRuntimeManagementMixin.remove_runtime` method: raise
`RuntimeActive` when the runtime is the active one (a `ValueError` from
`get_active_runtime` propagates), then `unlink` the root if it is a
symbolic link and `shutil.rmtree` it otherwise (`rmtree` fails with an
`OSError` on a missing path or a non-directory). -/
def remove_runtime (fs : FS) (rt : Runtime) : Except PyErr FS :=
  match get_active_runtime fs with
  | .error e => .error e
  | .ok act =>
  if act = some rt then
    .error (.runtimeActive rt)
  else
    match childName rt.root with
    | none => .error .osError
    | some n =>
      match fs.entries.find? (fun e => e.name = n) with
      | none => .error .osError
      | some en =>
        if en.isSymlink then
          .ok { fs with entries := fs.entries.eraseP (fun e => e.name = n) }
        else if en.isDir then
          .ok { fs with entries := fs.entries.eraseP (fun e => e.name = n) }
        else .error .osError

/-- The errno of a caught `OSError`, surfaced as the CLI return code in
`venvs.remove`; its concrete value is immaterial and modelled as 13. -/
def eErrno : Int := 13

/-- The body of `venvs.remove` after `find_runtime` has produced `runtime`:
when the runtime is active, first `deactivate_runtime` (a caught `OSError`
is returned as its errno, aborting before deletion), then `remove_runtime`
(a caught `OSError` is returned as its errno); the success return code
is 0.  `RuntimeActive` and `ValueError` are not caught and propagate. -/
def venvs_remove (fs : FS) (rt : Runtime) : Except PyErr (Int × FS) :=
  match get_active_runtime fs with
  | .error e => .error e
  | .ok act =>
  if act = some rt then
    match deactivate_runtime fs with
    | .error _ => .ok (eErrno, fs)
    | .ok fs1 =>
      match remove_runtime fs1 rt with
      | .ok fs2 => .ok (0, fs2)
      | .error .osError => .ok (eErrno, fs1)
      | .error e => .error e
  else
    match remove_runtime fs rt with
    | .ok fs2 => .ok (0, fs2)
    | .error .osError => .ok (eErrno, fs)
    | .error e => .error e

/-- Whether a character matches the regex class in the `pattern` arguments
of `_quote_if_contains` in `procs.py`: `\s` (whitespace) for a plain
argument. -/
def isWsChar (c : Char) : Bool := isPySpace c

/-- Whether a character matches the command-token class of `_cmdify`:
whitespace or a parenthesis. -/
def isWsParChar (c : Char) : Bool := isPySpace c || c = '(' || c = ')'

/-- The substitution `re.sub(r'(\\*)"', r'\1\1\\"', value)` in
`_quote_if_contains`: every double quote together with the (possibly
empty) run of backslashes immediately preceding it is replaced by that run
doubled, a backslash and the quote.  The accumulator counts the pending
run of backslashes not yet known to precede a quote. -/
def escGo : Nat → List Char → List Char
  | p, [] => List.replicate p '\\'
  | p, c :: rest =>
    if c = '\\' then escGo (p + 1) rest
    else if c = '"' then
      List.replicate (2 * p) '\\' ++ '\\' :: '"' :: escGo 0 rest
    else List.replicate p '\\' ++ c :: escGo 0 rest

/-- The full substitution of `_quote_if_contains`, starting with no
pending backslashes. -/
def escQuotes (v : List Char) : List Char := escGo 0 v

/-- The `_quote_if_contains` function of `procs.py`, with the regex
character class abstracted as a predicate: a value containing no matching
character is returned verbatim, any other value is escaped and wrapped in
double quotes. -/
def _quote_if_contains (foul : Char → Bool) (value : List Char) : List Char :=
  if ¬ value.any foul then value
  else '"' :: escQuotes value ++ ['"']

/-- The `_NTRunnable._cmdify` method: the command token is quoted when it
contains whitespace or a parenthesis, each argument when it contains
whitespace, and the pieces are joined by single spaces. -/
def _cmdify (cmd : List Char) (args : List (List Char)) : List Char :=
  _quote_if_contains isWsParChar cmd ++ ' ' ::
    List.intercalate [' '] (args.map (_quote_if_contains isWsChar))

/-! Library lemmas about the string primitives. -/

theorem splitOnChar_ne_nil (sep : Char) (cs : List Char) :
    splitOnChar sep cs ≠ [] := by
  induction cs with
  | nil => simp [splitOnChar]
  | cons c rest ih =>
    simp only [splitOnChar]
    cases h : splitOnChar sep rest with
    | nil => simp
    | cons r rs =>
      by_cases hc : c = sep <;> simp [hc]

theorem splitOnChar_of_not_mem {sep : Char} {a : List Char} (h : sep ∉ a) :
    splitOnChar sep a = [a] := by
  induction a with
  | nil => rfl
  | cons c rest ih =>
    have hc : c ≠ sep := fun hcs => h (hcs ▸ List.mem_cons_self c rest)
    have hrest : sep ∉ rest := fun hm => h (List.mem_cons_of_mem c hm)
    simp only [splitOnChar, ih hrest]
    simp [hc]

theorem splitOnChar_append_sep {sep : Char} {a : List Char} (b : List Char)
    (h : sep ∉ a) :
    splitOnChar sep (a ++ sep :: b) = a :: splitOnChar sep b := by
  induction a with
  | nil =>
    simp only [List.nil_append, splitOnChar]
    cases hb : splitOnChar sep b with
    | nil => exact absurd hb (splitOnChar_ne_nil sep b)
    | cons r rs => simp
  | cons c rest ih =>
    have hc : c ≠ sep := fun hcs => h (hcs ▸ List.mem_cons_self c rest)
    have hrest : sep ∉ rest := fun hm => h (List.mem_cons_of_mem c hm)
    simp only [List.cons_append, splitOnChar]
    rw [show rest.append (sep :: b) = rest ++ sep :: b from rfl, ih hrest]
    simp [hc]

theorem not_mem_of_mem_splitOnChar {sep : Char} {cs p : List Char}
    (h : p ∈ splitOnChar sep cs) : sep ∉ p := by
  induction cs generalizing p with
  | nil =>
    simp only [splitOnChar, List.mem_singleton] at h
    subst h; simp
  | cons c rest ih =>
    simp only [splitOnChar] at h
    cases hr : splitOnChar sep rest with
    | nil => exact absurd hr (splitOnChar_ne_nil sep rest)
    | cons r rs =>
      rw [hr] at h
      by_cases hc : c = sep
      · simp only [hc, if_pos rfl] at h
        rcases List.mem_cons.mp h with h0 | h1
        · subst h0; simp
        · exact ih (hr ▸ h1)
      · simp only [if_neg hc] at h
        rcases List.mem_cons.mp h with h0 | h1
        · subst h0
          intro hm
          rcases List.mem_cons.mp hm with h2 | h3
          · exact hc h2.symm
          · exact ih (hr ▸ List.mem_cons_self r rs) h3
        · exact ih (hr ▸ List.mem_cons_of_mem r h1)

theorem splitOnce_append_sep {sep : Char} {a : List Char} (b : List Char)
    (h : sep ∉ a) :
    splitOnce sep (a ++ sep :: b) = [a, b] := by
  induction a with
  | nil => simp [splitOnce]
  | cons c rest ih =>
    have hc : c ≠ sep := fun hcs => h (hcs ▸ List.mem_cons_self c rest)
    have hrest : sep ∉ rest := fun hm => h (List.mem_cons_of_mem c hm)
    simp only [List.cons_append, splitOnce, if_neg hc]
    rw [show rest.append (sep :: b) = rest ++ sep :: b from rfl, ih hrest]

/-- Joining name parts with dashes, the inverse of `splitOnChar '-'` on
dash-free parts; used to build the canonical alias forms. -/
def dashJoin : List (List Char) → List Char
  | [] => []
  | [p] => p
  | p :: rest => p ++ '-' :: dashJoin rest

theorem splitOnChar_dashJoin (parts : List (List Char))
    (h : ∀ p ∈ parts, ('-' : Char) ∉ p) (hne : parts ≠ []) :
    splitOnChar '-' (dashJoin parts) = parts := by
  induction parts with
  | nil => exact absurd rfl hne
  | cons p rest ih =>
    cases rest with
    | nil =>
      exact splitOnChar_of_not_mem (h p (List.mem_cons_self p []))
    | cons q rest' =>
      have hp : ('-' : Char) ∉ p := h p (List.mem_cons_self p (q :: rest'))
      have hrest : ∀ r ∈ q :: rest', ('-' : Char) ∉ r :=
        fun r hr => h r (List.mem_cons_of_mem p hr)
      show splitOnChar '-' (p ++ '-' :: dashJoin (q :: rest')) = p :: q :: rest'
      rw [splitOnChar_append_sep (dashJoin (q :: rest')) hp,
        ih hrest (by simp)]

/-- C1: for every runtime whose name is a valid five-part dash-joined
lowercase quintuplet `a-b-c-d-e`, the matcher `from_alias` builds from the
runtime's own parts in each canonical form — `b` (version), `a-b`
(implementation-version), `a-b-d` (implementation-version-platform),
`a-b-c-d` (full identity minus hash) and `a-b-c-d-e` (complete quintuplet
including hash) — matches that runtime. -/
theorem C1_self_alias_matches (name a b c d e : List Char)
    (hsplit : splitOnChar '-' name = [a, b, c, d, e])
    (hla : lowerStr a = a) (hlb : lowerStr b = b) (hlc : lowerStr c = c)
    (hld : lowerStr d = d) (hle : lowerStr e = e) :
    aliasMatchesName (dashJoin [b]) name = true
    ∧ aliasMatchesName (dashJoin [a, b]) name = true
    ∧ aliasMatchesName (dashJoin [a, b, d]) name = true
    ∧ aliasMatchesName (dashJoin [a, b, c, d]) name = true
    ∧ aliasMatchesName (dashJoin [a, b, c, d, e]) name = true := by
  have hmem : ∀ p ∈ [a, b, c, d, e], ('-' : Char) ∉ p := by
    intro p hp
    exact not_mem_of_mem_splitOnChar (hsplit ▸ hp)
  refine ⟨?_, ?_, ?_, ?_, ?_⟩ <;>
  · simp only [aliasMatchesName, _QuintapletMatcher.from_alias]
    rw [splitOnChar_dashJoin _
      (by intro p hp; apply hmem; simp only [List.mem_cons] at hp ⊢; tauto)
      (by simp)]
    simp only [_QuintapletMatcher.create, List.map_cons, List.map_nil,
      hla, hlb, hlc, hld, hle, _QuintapletMatcher.doesMatch, hsplit]
    simp [lowerStr, zipMatch]

/-- Witness for C1 at the concrete quintuplet
`cpython-3.9-linux-x86_64-3d3725a6`. -/
theorem C1_self_alias_matches_witness :
    aliasMatchesName (dashJoin ["3.9".toList])
      "cpython-3.9-linux-x86_64-3d3725a6".toList = true
    ∧ aliasMatchesName (dashJoin ["cpython".toList, "3.9".toList])
      "cpython-3.9-linux-x86_64-3d3725a6".toList = true
    ∧ aliasMatchesName (dashJoin ["cpython".toList, "3.9".toList, "x86_64".toList])
      "cpython-3.9-linux-x86_64-3d3725a6".toList = true
    ∧ aliasMatchesName
      (dashJoin ["cpython".toList, "3.9".toList, "linux".toList, "x86_64".toList])
      "cpython-3.9-linux-x86_64-3d3725a6".toList = true
    ∧ aliasMatchesName
      (dashJoin ["cpython".toList, "3.9".toList, "linux".toList, "x86_64".toList,
        "3d3725a6".toList])
      "cpython-3.9-linux-x86_64-3d3725a6".toList = true :=
  C1_self_alias_matches "cpython-3.9-linux-x86_64-3d3725a6".toList
    "cpython".toList "3.9".toList "linux".toList "x86_64".toList "3d3725a6".toList
    (by decide) (by decide) (by decide) (by decide) (by decide) (by decide)

theorem from_alias_none_of_length {aliasStr : List Char}
    (h : (splitOnChar '-' aliasStr).length < 1
      ∨ 5 < (splitOnChar '-' aliasStr).length) :
    _QuintapletMatcher.from_alias aliasStr = none := by
  unfold _QuintapletMatcher.from_alias
  rcases hl : splitOnChar '-' aliasStr with
    _ | ⟨p1, _ | ⟨p2, _ | ⟨p3, _ | ⟨p4, _ | ⟨p5, _ | ⟨p6, rest⟩⟩⟩⟩⟩⟩ <;>
    rw [hl] at h <;> simp_all

/-- C2: for every aliasStr and registry, `find_runtime` with zero matching
entries fails with `NoRuntimeMatch` carrying the aliasStr and all enumerated
runtimes as `tried`; with exactly one match it returns that runtime; with
more than one match it fails with `MultipleRuntimeMatches` carrying all
matches (never picking the first); and an aliasStr whose dash-split part
count is outside 1–5 fails as `NoRuntimeMatch`, not a new error kind. -/
theorem C2_find_runtime_outcomes (aliasStr : List Char) (rts : List Runtime) :
    ((splitOnChar '-' aliasStr).length < 1 ∨ 5 < (splitOnChar '-' aliasStr).length →
      find_runtime aliasStr rts = .error (.noMatch aliasStr rts))
    ∧ (∀ m, _QuintapletMatcher.from_alias aliasStr = some m →
        (rts.filter (fun r => m.doesMatch r.name) = [] →
          find_runtime aliasStr rts = .error (.noMatch aliasStr rts))
        ∧ (∀ r, rts.filter (fun r => m.doesMatch r.name) = [r] →
          find_runtime aliasStr rts = .ok r)
        ∧ (∀ r1 r2 rest, rts.filter (fun r => m.doesMatch r.name) = r1 :: r2 :: rest →
          find_runtime aliasStr rts =
            .error (.multipleMatches aliasStr (r1 :: r2 :: rest)))) := by
  constructor
  · intro h
    simp only [find_runtime, from_alias_none_of_length h]
  · intro m hm
    refine ⟨?_, ?_, ?_⟩
    · intro hf
      simp only [find_runtime, hm, hf]
    · intro r hf
      simp only [find_runtime, hm, hf]
    · intro r1 r2 rest hf
      simp only [find_runtime, hm, hf]

/-- Witness for C2: a six-part aliasStr is reported as no-match; a unique
match is returned; two matches are reported together. -/
theorem C2_find_runtime_outcomes_witness :
    find_runtime "a-b-c-d-e-f".toList [⟨".venvs/q".toList⟩]
      = .error (.noMatch "a-b-c-d-e-f".toList [⟨".venvs/q".toList⟩])
    ∧ find_runtime "3.9".toList [⟨".venvs/cpython-3.9-linux-x86_64-aaaaaaaa".toList⟩]
      = .ok ⟨".venvs/cpython-3.9-linux-x86_64-aaaaaaaa".toList⟩
    ∧ find_runtime "3.9".toList
        [⟨".venvs/cpython-3.9-linux-x86_64-aaaaaaaa".toList⟩,
         ⟨".venvs/cpython-3.9-darwin-x86_64-bbbbbbbb".toList⟩]
      = .error (.multipleMatches "3.9".toList
          [⟨".venvs/cpython-3.9-linux-x86_64-aaaaaaaa".toList⟩,
           ⟨".venvs/cpython-3.9-darwin-x86_64-bbbbbbbb".toList⟩]) := by
  refine ⟨?_, ?_, ?_⟩
  · exact (C2_find_runtime_outcomes "a-b-c-d-e-f".toList [⟨".venvs/q".toList⟩]).1
      (by decide)
  · exact ((C2_find_runtime_outcomes "3.9".toList
      [⟨".venvs/cpython-3.9-linux-x86_64-aaaaaaaa".toList⟩]).2
      ⟨[[], "3.9".toList, [], []], []⟩ (by decide)).2.1
      ⟨".venvs/cpython-3.9-linux-x86_64-aaaaaaaa".toList⟩ (by decide)
  · exact (((C2_find_runtime_outcomes "3.9".toList
      [⟨".venvs/cpython-3.9-linux-x86_64-aaaaaaaa".toList⟩,
       ⟨".venvs/cpython-3.9-darwin-x86_64-bbbbbbbb".toList⟩]).2
      ⟨[[], "3.9".toList, [], []], []⟩ (by decide)).2.2)
      ⟨".venvs/cpython-3.9-linux-x86_64-aaaaaaaa".toList⟩
      ⟨".venvs/cpython-3.9-darwin-x86_64-bbbbbbbb".toList⟩ [] (by decide)

theorem toLower_eq_dash_iff (c : Char) : Char.toLower c = '-' ↔ c = '-' := by
  constructor
  · intro h
    by_cases hr : c.toNat ≥ 65 ∧ c.toNat ≤ 90
    · exfalso
      have hl : Char.toLower c = Char.ofNat (c.toNat + 32) := by
        simp [Char.toLower, hr]
      rw [hl] at h
      obtain ⟨h1, h2⟩ := hr
      revert h
      generalize c.toNat = n at h1 h2
      interval_cases n <;> decide
    · have hl : Char.toLower c = c := by simp [Char.toLower, hr]
      rwa [hl] at h
  · intro h
    subst h
    decide

theorem toLower_toLower (c : Char) :
    Char.toLower (Char.toLower c) = Char.toLower c := by
  by_cases hr : c.toNat ≥ 65 ∧ c.toNat ≤ 90
  · have hl : Char.toLower c = Char.ofNat (c.toNat + 32) := by
      simp [Char.toLower, hr]
    rw [hl]
    obtain ⟨h1, h2⟩ := hr
    generalize c.toNat = n at h1 h2
    interval_cases n <;> decide
  · have hl : Char.toLower c = c := by simp [Char.toLower, hr]
    rw [hl, hl]

theorem lowerStr_idem (s : List Char) : lowerStr (lowerStr s) = lowerStr s := by
  simp [lowerStr, List.map_map, Function.comp_def, toLower_toLower]

theorem splitOnChar_lowerStr (s : List Char) :
    splitOnChar '-' (lowerStr s) = (splitOnChar '-' s).map lowerStr := by
  induction s with
  | nil => rfl
  | cons c rest ih =>
    simp only [lowerStr, List.map_cons, splitOnChar]
    rw [show List.map Char.toLower rest = lowerStr rest from rfl, ih]
    cases hr : splitOnChar '-' rest with
    | nil => exact absurd hr (splitOnChar_ne_nil _ _)
    | cons r rs =>
      by_cases hc : c = '-'
      · subst hc
        simp [List.map_cons, lowerStr]
      · have hc' : Char.toLower c ≠ '-' :=
          fun hx => hc ((toLower_eq_dash_iff c).mp hx)
        simp [List.map_cons, hc, hc', lowerStr]

theorem from_alias_lowerStr (al : List Char) :
    _QuintapletMatcher.from_alias (lowerStr al)
      = _QuintapletMatcher.from_alias al := by
  unfold _QuintapletMatcher.from_alias
  rw [splitOnChar_lowerStr]
  rcases hl : splitOnChar '-' al with
    _ | ⟨p1, _ | ⟨p2, _ | ⟨p3, _ | ⟨p4, _ | ⟨p5, _ | ⟨p6, rest⟩⟩⟩⟩⟩⟩ <;>
    simp only [List.map_cons, List.map_nil] <;>
    simp [_QuintapletMatcher.create, lowerStr_idem, lowerStr, toLower_toLower]

theorem zipMatch_eq_true_iff (as_ bs : List (List Char)) :
    zipMatch as_ bs = true ↔
      ∀ pr ∈ List.zip as_ bs, pr.1 ≠ [] → pr.2 ≠ [] → pr.1 = pr.2 := by
  induction as_ generalizing bs with
  | nil => simp [zipMatch]
  | cons a as' ih =>
    cases bs with
    | nil => simp [zipMatch]
    | cons b bs' =>
      simp only [zipMatch, List.zip_cons_cons, List.mem_cons]
      by_cases hc : a = [] ∨ b = [] ∨ a = b
      · rw [if_pos hc, ih]
        constructor
        · intro hall pr hpr
          rcases hpr with rfl | hm
          · intro h1 h2
            rcases hc with h | h | h
            · exact absurd h h1
            · exact absurd h h2
            · exact h
          · exact hall pr hm
        · intro hall pr hpr
          exact hall pr (Or.inr hpr)
      · rw [if_neg hc]
        push_neg at hc
        obtain ⟨h1, h2, h3⟩ := hc
        constructor
        · intro h
          exact absurd h (by simp)
        · intro hall
          exact absurd (hall (a, b) (Or.inl rfl) h1 h2) h3

/-- C6 counterexample: the matcher built from `cpython-3.9` and the
candidate name `CPython-3.9-linux-x86_64-aaaaaaaa` are equal up to letter
case, yet the match fails; it succeeds only on the already-lowercase
candidate.  Case-insensitivity therefore does not hold on the candidate
side. -/
theorem C6_counterexample :
    aliasMatchesName "cpython-3.9".toList
      "CPython-3.9-linux-x86_64-aaaaaaaa".toList = false
    ∧ lowerStr "CPython-3.9-linux-x86_64-aaaaaaaa".toList
      = "cpython-3.9-linux-x86_64-aaaaaaaa".toList
    ∧ aliasMatchesName "cpython-3.9".toList
      "cpython-3.9-linux-x86_64-aaaaaaaa".toList = true := by
  refine ⟨?_, ?_, ?_⟩ <;> decide

/-- C6 amended: matching is case-insensitive on the matcher side only —
lowercasing an alias does not change the matcher built from it — while the
candidate's parts are compared verbatim: a non-empty matcher part (or the
non-empty matcher hash) matches exactly when the candidate part is
literally equal to the (lowercased) matcher part, so a candidate part
differing from the matcher part only by case matches only if the
candidate is itself lowercase. -/
theorem C6_matcher_side_case_insensitivity :
    (∀ al, _QuintapletMatcher.from_alias (lowerStr al)
      = _QuintapletMatcher.from_alias al)
    ∧ (∀ (m : _QuintapletMatcher) (name p1 p2 p3 p4 h : List Char),
        splitOnChar '-' name = [p1, p2, p3, p4, h] →
        (m.doesMatch name = true ↔
          ((m.hash = [] ∨ m.hash = h)
            ∧ ∀ pr ∈ List.zip [p1, p2, p3, p4] m.parts,
                pr.1 ≠ [] → pr.2 ≠ [] → pr.1 = pr.2))) := by
  constructor
  · exact from_alias_lowerStr
  · intro m name p1 p2 p3 p4 h hsplit
    simp only [_QuintapletMatcher.doesMatch, hsplit]
    by_cases hh : m.hash ≠ [] ∧ m.hash ≠ h
    · rw [if_pos hh]
      constructor
      · intro hx
        exact absurd hx (by simp)
      · intro ⟨hor, _⟩
        rcases hor with h1 | h1
        · exact absurd h1 hh.1
        · exact absurd h1 hh.2
    · rw [if_neg hh]
      rw [zipMatch_eq_true_iff]
      push_neg at hh
      constructor
      · intro hall
        refine ⟨?_, hall⟩
        by_cases he : m.hash = []
        · exact Or.inl he
        · exact Or.inr (hh he)
      · intro ⟨_, hall⟩
        exact hall

/-- Witness for the amended C6 theorem, at a matcher with an uppercase
alias and a lowercase candidate. -/
theorem C6_matcher_side_case_insensitivity_witness :
    _QuintapletMatcher.from_alias (lowerStr "CPYTHON-3.9".toList)
      = _QuintapletMatcher.from_alias "CPYTHON-3.9".toList
    ∧ (_QuintapletMatcher.doesMatch ⟨["cpython".toList, "3.9".toList, [], []], []⟩
        "cpython-3.9-linux-x86_64-aaaaaaaa".toList = true ↔
        ((([] : List Char) = [] ∨ ([] : List Char) = "aaaaaaaa".toList)
          ∧ ∀ pr ∈ List.zip
              ["cpython".toList, "3.9".toList, "linux".toList, "x86_64".toList]
              [["cpython".toList, "3.9".toList, [], []], []].head!,
              pr.1 ≠ [] → pr.2 ≠ [] → pr.1 = pr.2)) := by
  constructor
  · exact C6_matcher_side_case_insensitivity.1 "CPYTHON-3.9".toList
  · exact C6_matcher_side_case_insensitivity.2
      ⟨["cpython".toList, "3.9".toList, [], []], []⟩
      "cpython-3.9-linux-x86_64-aaaaaaaa".toList
      "cpython".toList "3.9".toList "linux".toList "x86_64".toList
      "aaaaaaaa".toList (by decide)

theorem zipMatch_set (as_ : List (List Char)) (bs : List (List Char))
    (j : Nat) (v : List Char) (ha : as_.get? j = some []) :
    zipMatch as_ (bs.set j v) = zipMatch as_ bs := by
  induction as_ generalizing bs j with
  | nil => simp at ha
  | cons a as' ih =>
    cases bs with
    | nil => simp
    | cons b bs' =>
      cases j with
      | zero =>
        simp only [List.get?] at ha
        injection ha with ha'
        subst ha'
        simp [zipMatch]
      | succ j' =>
        simp only [List.get?] at ha
        simp only [List.set, zipMatch]
        rw [ih bs' j' ha]

/-- C10: a five-part runtime name with an empty component is matched with
the comparison for that slot skipped even when the matcher's corresponding
part is non-empty — the match result is invariant under replacing the
matcher's part in that slot by any value whatsoever. -/
theorem C10_empty_candidate_slot_wildcard (m : _QuintapletMatcher)
    (name p1 p2 p3 p4 h : List Char) (j : Nat) (v : List Char)
    (hsplit : splitOnChar '-' name = [p1, p2, p3, p4, h])
    (hempty : [p1, p2, p3, p4].get? j = some []) :
    _QuintapletMatcher.doesMatch { m with parts := m.parts.set j v } name
      = m.doesMatch name := by
  simp only [_QuintapletMatcher.doesMatch, hsplit]
  rw [zipMatch_set _ _ _ _ hempty]

/-- Witness for C10 at the runtime name `cpython--linux-x86_64-aaaaaaaa`
(empty version slot): the matcher demanding version `3.7` matches, and so
does the same matcher with the version slot replaced by `9.9`. -/
theorem C10_empty_candidate_slot_wildcard_witness :
    _QuintapletMatcher.doesMatch
      ⟨["cpython".toList, "3.7".toList, [], []].set 1 "9.9".toList, []⟩
      "cpython--linux-x86_64-aaaaaaaa".toList
      = _QuintapletMatcher.doesMatch ⟨["cpython".toList, "3.7".toList, [], []], []⟩
        "cpython--linux-x86_64-aaaaaaaa".toList
    ∧ _QuintapletMatcher.doesMatch ⟨["cpython".toList, "3.7".toList, [], []], []⟩
      "cpython--linux-x86_64-aaaaaaaa".toList = true := by
  constructor
  · exact C10_empty_candidate_slot_wildcard
      ⟨["cpython".toList, "3.7".toList, [], []], []⟩
      "cpython--linux-x86_64-aaaaaaaa".toList
      "cpython".toList [] "linux".toList "x86_64".toList "aaaaaaaa".toList
      1 "9.9".toList (by decide) (by decide)
  · decide

/-- C9: whenever the marker path is occupied by a directory that is not a
symbolic link, `get_active_runtime` falls through both the regular-file
branch and the symlink branch and returns no active runtime, without
raising. -/
theorem C9_dir_marker_returns_none (fs : FS) (h : fs.marker = .dir) :
    get_active_runtime fs = .ok none := by
  simp [get_active_runtime, h]

/-- Witness for C9 at a concrete state with a directory at the marker
path. -/
theorem C9_dir_marker_returns_none_witness :
    get_active_runtime ⟨.dir, [⟨"q".toList, true, false⟩]⟩ = .ok none :=
  C9_dir_marker_returns_none ⟨.dir, [⟨"q".toList, true, false⟩]⟩ rfl

/-- C5: `get_active_runtime` does return none for a marker naming a wrong
container or a missing runtime directory, but a marker file whose content
contains no `/` separator (such as the single character `x`) makes the
tuple unpacking of `content.split("/", 1)` raise `ValueError` instead of
returning none. -/
theorem C5_invalid_marker_behaviour :
    get_active_runtime ⟨.file "x".toList, []⟩ = .error .valueError
    ∧ get_active_runtime ⟨.file ".wrong/a".toList, [⟨"a".toList, true, false⟩]⟩
      = .ok none
    ∧ get_active_runtime
      ⟨.file ".venvs/missing".toList, [⟨"other".toList, true, false⟩]⟩
      = .ok none := by
  refine ⟨?_, ?_, ?_⟩ <;> rfl

/-- C7 counterexample: activating `⟨".venvs/foo"⟩` on an absent marker
writes exactly `.venvs/foo` — the content is not terminated by a line
feed, contradicting the claim's "single line terminated by a line
feed". -/
theorem C7_counterexample :
    activate_runtime ⟨.absent, []⟩ ⟨".venvs/foo".toList⟩
      = .ok ⟨.file ".venvs/foo".toList, []⟩
    ∧ (".venvs/foo".toList).getLast? ≠ some '\n' := by
  refine ⟨rfl, by decide⟩

/-- C7 amended: on a previous marker state that is absent or a regular
file, `activate_runtime` overwrites the marker with a regular file whose
content is exactly `<container-name>/<runtime-name>` with no trailing
newline (and, for a newline-free runtime name, no newline at all; the
file is opened in line-feed-only newline-translation mode). -/
theorem C7_activate_writes_exact_content (fs : FS) (rt : Runtime)
    (h : fs.marker = .absent ∨ ∃ c, fs.marker = .file c) :
    activate_runtime fs rt
      = .ok { fs with marker := .file (_VENV_CONTAINER_NAME ++ '/' :: rt.name) }
    ∧ ('\n' ∉ rt.name → '\n' ∉ (_VENV_CONTAINER_NAME ++ '/' :: rt.name)) := by
  constructor
  · rcases h with h | ⟨c, h⟩ <;> simp [activate_runtime, h]
  · intro hn hmem
    rcases List.mem_append.mp hmem with h1 | h2
    · revert h1; decide
    · rcases List.mem_cons.mp h2 with h3 | h4
      · exact absurd h3 (by decide)
      · exact hn h4

/-- Witness for the amended C7 theorem: overwriting a pre-existing marker
file with the exact unterminated content. -/
theorem C7_activate_writes_exact_content_witness :
    activate_runtime ⟨.file "old".toList, []⟩ ⟨".venvs/foo".toList⟩
      = .ok ⟨.file ".venvs/foo".toList, []⟩
    ∧ ('\n' ∉ ".venvs/foo".toList) := by
  have h := C7_activate_writes_exact_content ⟨.file "old".toList, []⟩
    ⟨".venvs/foo".toList⟩ (Or.inr ⟨"old".toList, rfl⟩)
  exact ⟨h.1, h.2 (by decide)⟩

theorem Runtime_name_child (n : List Char) (hn : ('/' : Char) ∉ n) :
    Runtime.name ⟨_VENV_CONTAINER_NAME ++ '/' :: n⟩ = n := by
  unfold Runtime.name
  show (splitOnChar '/' (_VENV_CONTAINER_NAME ++ '/' :: n)).getLastD [] = n
  rw [splitOnChar_append_sep n (by decide), splitOnChar_of_not_mem hn]
  rfl

theorem pyStrip_marker_content (n : List Char)
    (hlast : ∀ c, n.getLast? = some c → isPySpace c = false) :
    pyStrip (_VENV_CONTAINER_NAME ++ '/' :: n)
      = _VENV_CONTAINER_NAME ++ '/' :: n := by
  unfold pyStrip
  have h1 : (_VENV_CONTAINER_NAME ++ '/' :: n).dropWhile isPySpace
      = _VENV_CONTAINER_NAME ++ '/' :: n := by
    rw [show _VENV_CONTAINER_NAME ++ '/' :: n
      = '.' :: ("venvs".toList ++ '/' :: n) from rfl]
    rw [List.dropWhile_cons]
    rw [show isPySpace '.' = false by decide]
    simp
  rw [h1]
  have hrev : (_VENV_CONTAINER_NAME ++ '/' :: n).reverse
      = n.reverse ++ '/' :: _VENV_CONTAINER_NAME.reverse := by
    simp
  rw [hrev]
  have h2 : (n.reverse ++ '/' :: _VENV_CONTAINER_NAME.reverse).dropWhile isPySpace
      = n.reverse ++ '/' :: _VENV_CONTAINER_NAME.reverse := by
    cases hn : n.reverse with
    | nil =>
      simp only [List.nil_append, List.dropWhile_cons]
      rw [show isPySpace '/' = false by decide]
      simp
    | cons c rest =>
      have hc : isPySpace c = false := by
        apply hlast
        rw [List.getLast?_eq_head?_reverse, hn]
        rfl
      simp only [List.cons_append, List.dropWhile_cons, hc]
      simp
  rw [h2]
  simp

theorem univNewlines_of_not_mem {cs : List Char} (h : ('\r' : Char) ∉ cs) :
    univNewlines cs = cs := by
  induction cs with
  | nil => rfl
  | cons c rest ih =>
    have hc : c ≠ '\r' := fun hh => h (hh ▸ List.mem_cons_self c rest)
    have hr : ('\r' : Char) ∉ rest := fun hm => h (List.mem_cons_of_mem c hm)
    rw [univNewlines.eq_def]
    split <;> simp_all

theorem readMarkerFile_exact (fs : FS) (n : List Char)
    (hcr : ('\r' : Char) ∉ n)
    (hlast : ∀ c, n.getLast? = some c → isPySpace c = false)
    (hex : fs.childExists n = true) :
    readMarkerFile fs (_VENV_CONTAINER_NAME ++ '/' :: n)
      = .ok (some ⟨_VENV_CONTAINER_NAME ++ '/' :: n⟩) := by
  have hcr' : ('\r' : Char) ∉ _VENV_CONTAINER_NAME ++ '/' :: n := by
    intro hm
    rcases List.mem_append.mp hm with h1 | h2
    · revert h1; decide
    · rcases List.mem_cons.mp h2 with h3 | h4
      · exact absurd h3 (by decide)
      · exact hcr h4
  unfold readMarkerFile
  rw [univNewlines_of_not_mem hcr', pyStrip_marker_content n hlast,
    splitOnce_append_sep n (by decide)]
  simp [hex]

/-- C3 counterexample: the runtime directory `x␠` (trailing space) exists
as a direct child of the container, yet activating it and reading the
marker back yields no active runtime, because `get_active_runtime` strips
the marker content before parsing it; likewise the runtime directory
whose name is `a`, carriage return, `b` activates but reads back as none,
because `read_text` translates the stored carriage return to a line feed.
The round trip therefore fails for these runtimes. -/
theorem C3_counterexample :
    (activate_runtime ⟨.absent, [⟨['x', ' '], true, false⟩]⟩
        ⟨".venvs/x ".toList⟩ >>= get_active_runtime) = .ok none
    ∧ (activate_runtime ⟨.absent, [⟨['a', '\r', 'b'], true, false⟩]⟩
        ⟨['.', 'v', 'e', 'n', 'v', 's', '/', 'a', '\r', 'b']⟩
        >>= get_active_runtime) = .ok none
    ∧ (some (⟨".venvs/x ".toList⟩ : Runtime) : Option Runtime) ≠ none := by
  refine ⟨rfl, rfl, by simp⟩

/-- C3 amended: for every runtime whose directory exists as a direct child
of the runtime container and whose name has no trailing whitespace and
contains no carriage return, a successful `activate_runtime` followed by
`get_active_runtime` (with no other filesystem change) returns the
just-activated runtime; repeated `activate_runtime` with the same runtime
is idempotent; and `deactivate_runtime` followed by `get_active_runtime`
returns none. -/
theorem C3_activate_roundtrip (fs fs1 : FS) (rt : Runtime) (n : List Char)
    (hroot : rt.root = _VENV_CONTAINER_NAME ++ '/' :: n)
    (hn : ('/' : Char) ∉ n)
    (hcr : ('\r' : Char) ∉ n)
    (hlast : ∀ c, n.getLast? = some c → isPySpace c = false)
    (hex : fs.entries.any (fun e => e.name = n && e.isDir) = true)
    (hact : activate_runtime fs rt = .ok fs1) :
    get_active_runtime fs1 = .ok (some rt)
    ∧ activate_runtime fs1 rt = .ok fs1
    ∧ ∃ fs2, deactivate_runtime fs1 = .ok fs2
        ∧ get_active_runtime fs2 = .ok none := by
  have hname : rt.name = n := by
    have : rt = ⟨_VENV_CONTAINER_NAME ++ '/' :: n⟩ := by
      cases rt; simp_all
    rw [this]
    exact Runtime_name_child n hn
  have hex0 : fs.childExists n = true := by
    unfold FS.childExists
    rcases List.any_eq_true.mp hex with ⟨e, he, hpe⟩
    refine List.any_eq_true.mpr ⟨e, he, ?_⟩
    simp only [Bool.and_eq_true, decide_eq_true_eq] at hpe ⊢
    exact hpe.1
  have hread : ∀ g : FS, g.entries = fs.entries →
      readMarkerFile g (_VENV_CONTAINER_NAME ++ '/' :: rt.name)
        = .ok (some rt) := by
    intro g hg
    rw [hname]
    have hex' : g.childExists n = true := by
      unfold FS.childExists at hex0 ⊢
      rw [hg]
      exact hex0
    rw [readMarkerFile_exact g n hcr hlast hex']
    rw [show (⟨_VENV_CONTAINER_NAME ++ '/' :: n⟩ : Runtime) = rt by
      cases rt; simp_all]
  cases hm : fs.marker with
  | absent =>
    rw [activate_runtime, hm] at hact
    simp only [Except.ok.injEq] at hact
    subst hact
    refine ⟨?_, ?_, ?_⟩
    · exact hread _ rfl
    · rfl
    · exact ⟨_, rfl, rfl⟩
  | file c =>
    rw [activate_runtime, hm] at hact
    simp only [Except.ok.injEq] at hact
    subst hact
    refine ⟨?_, ?_, ?_⟩
    · exact hread _ rfl
    · rfl
    · exact ⟨_, rfl, rfl⟩
  | dir =>
    rw [activate_runtime, hm] at hact
    exact absurd hact (by simp)
  | symlink t =>
    cases t with
    | toFile c =>
      rw [activate_runtime, hm] at hact
      simp only [Except.ok.injEq] at hact
      subst hact
      refine ⟨?_, ?_, ?_⟩
      · exact hread _ rfl
      · rfl
      · exact ⟨_, rfl, rfl⟩
    | toDir p =>
      rw [activate_runtime, hm] at hact
      exact absurd hact (by simp)
    | broken =>
      rw [activate_runtime, hm] at hact
      simp only [Except.ok.injEq] at hact
      subst hact
      refine ⟨?_, ?_, ?_⟩
      · exact hread _ rfl
      · rfl
      · exact ⟨_, rfl, rfl⟩

/-- Witness for the amended C3 theorem at the runtime `q`, activated over
an absent marker. -/
theorem C3_activate_roundtrip_witness :
    get_active_runtime ⟨.file ".venvs/q".toList, [⟨"q".toList, true, false⟩]⟩
      = .ok (some ⟨".venvs/q".toList⟩)
    ∧ activate_runtime ⟨.file ".venvs/q".toList, [⟨"q".toList, true, false⟩]⟩
        ⟨".venvs/q".toList⟩
      = .ok ⟨.file ".venvs/q".toList, [⟨"q".toList, true, false⟩]⟩
    ∧ ∃ fs2, deactivate_runtime
        ⟨.file ".venvs/q".toList, [⟨"q".toList, true, false⟩]⟩ = .ok fs2
        ∧ get_active_runtime fs2 = .ok none :=
  C3_activate_roundtrip ⟨.absent, [⟨"q".toList, true, false⟩]⟩
    ⟨.file ".venvs/q".toList, [⟨"q".toList, true, false⟩]⟩
    ⟨".venvs/q".toList⟩ "q".toList rfl (by decide) (by decide)
    (by
      intro c hc
      have hq : ("q".toList).getLast? = some 'q' := rfl
      rw [hq] at hc
      injection hc with h
      subst h
      decide)
    (by decide) rfl

/-- C4: removing the currently active runtime through the `venvs.remove`
flow first deactivates it (removing the marker) and then deletes the
runtime's directory entry (via `unlink` when the entry is a symbolic
link, recursively via `rmtree` otherwise), returning exit code 0, after
which `get_active_runtime` returns none. -/
theorem C4_remove_active_runtime (fs : FS) (rt : Runtime) (n : List Char)
    (en : ContainerEntry)
    (hact : get_active_runtime fs = .ok (some rt))
    (hroot : rt.root = _VENV_CONTAINER_NAME ++ '/' :: n)
    (hn : ('/' : Char) ∉ n)
    (hfind : fs.entries.find? (fun e => e.name = n) = some en)
    (hkind : en.isDir = true ∨ en.isSymlink = true) :
    venvs_remove fs rt
      = .ok (0, ⟨.absent, fs.entries.eraseP (fun e => e.name = n)⟩)
    ∧ get_active_runtime
        (⟨.absent, fs.entries.eraseP (fun e => e.name = n)⟩ : FS)
      = .ok none := by
  have hdeact : deactivate_runtime fs = .ok { fs with marker := .absent } := by
    cases hm : fs.marker with
    | absent => rw [get_active_runtime, hm] at hact; simp at hact
    | dir => rw [get_active_runtime, hm] at hact; simp at hact
    | file c => simp [deactivate_runtime, hm]
    | symlink t => simp [deactivate_runtime, hm]
  have hchild : childName rt.root = some n := by
    rw [hroot]
    unfold childName
    rw [splitOnChar_append_sep n (by decide), splitOnChar_of_not_mem hn]
    simp
  have hgact : get_active_runtime { fs with marker := .absent } = .ok none :=
    rfl
  have hrm : remove_runtime { fs with marker := .absent } rt
      = .ok ⟨.absent, fs.entries.eraseP (fun e => e.name = n)⟩ := by
    rcases hkind with hk | hk
    · by_cases hs : en.isSymlink = true
      · simp [remove_runtime, hgact, hchild, hfind, hs]
      · simp only [Bool.not_eq_true] at hs
        simp [remove_runtime, hgact, hchild, hfind, hs, hk]
    · simp [remove_runtime, hgact, hchild, hfind, hk]
  constructor
  · simp [venvs_remove, hact, hdeact, hrm]
  · rfl

/-- Witness for C4: removing the active runtime `q` deactivates and
deletes it. -/
theorem C4_remove_active_runtime_witness :
    venvs_remove ⟨.file ".venvs/q".toList, [⟨"q".toList, true, false⟩]⟩
      ⟨".venvs/q".toList⟩ = .ok (0, ⟨.absent, []⟩)
    ∧ get_active_runtime (⟨.absent, []⟩ : FS) = .ok none :=
  C4_remove_active_runtime
    ⟨.file ".venvs/q".toList, [⟨"q".toList, true, false⟩]⟩
    ⟨".venvs/q".toList⟩ "q".toList ⟨"q".toList, true, false⟩
    rfl rfl (by decide) rfl (Or.inl rfl)

theorem escGo_replicate (k : Nat) (b : List Char) : ∀ p : Nat,
    escGo p (List.replicate k '\\' ++ '"' :: b)
      = List.replicate (2 * (p + k)) '\\' ++ '\\' :: '"' :: escGo 0 b := by
  induction k with
  | zero =>
    intro p
    simp [escGo]
  | succ k' ih =>
    intro p
    rw [List.replicate_succ, List.cons_append]
    rw [show escGo p ('\\' :: (List.replicate k' '\\' ++ '"' :: b))
      = escGo (p + 1) (List.replicate k' '\\' ++ '"' :: b) by simp [escGo]]
    rw [ih (p + 1)]
    congr 2
    omega

/-- C8: the Windows command-line encoder leaves a value verbatim when it
contains no foul character (whitespace for a plain argument; whitespace or
a parenthesis for the command token), and otherwise wraps it in double
quotes after doubling every run of backslashes immediately preceding an
existing double quote and prefixing that quote with a backslash; all other
characters pass through the escape unchanged. -/
theorem C8_nt_quoting :
    (∀ v : List Char, v.any isWsChar = false →
      _quote_if_contains isWsChar v = v)
    ∧ (∀ v : List Char, v.any isWsChar = true →
      _quote_if_contains isWsChar v = '"' :: escQuotes v ++ ['"'])
    ∧ (∀ v : List Char, v.any isWsParChar = false →
      _quote_if_contains isWsParChar v = v)
    ∧ (∀ v : List Char, ('(' ∈ v ∨ ')' ∈ v ∨ v.any isWsChar = true) →
      _quote_if_contains isWsParChar v = '"' :: escQuotes v ++ ['"'])
    ∧ (∀ (k : Nat) (b : List Char),
      escQuotes (List.replicate k '\\' ++ '"' :: b)
        = List.replicate (2 * k) '\\' ++ '\\' :: '"' :: escQuotes b)
    ∧ (∀ (c : Char) (b : List Char), c ≠ '\\' → c ≠ '"' →
      escQuotes (c :: b) = c :: escQuotes b)
    ∧ escQuotes [] = []
    ∧ (∀ (cmd : List Char) (args : List (List Char)),
      _cmdify cmd args = _quote_if_contains isWsParChar cmd ++ ' ' ::
        List.intercalate [' '] (args.map (_quote_if_contains isWsChar))) := by
  refine ⟨?_, ?_, ?_, ?_, ?_, ?_, rfl, fun _ _ => rfl⟩
  · intro v hv
    simp [_quote_if_contains, hv]
  · intro v hv
    simp [_quote_if_contains, hv]
  · intro v hv
    simp [_quote_if_contains, hv]
  · intro v hv
    have hany : v.any isWsParChar = true := by
      rcases hv with h | h | h
      · exact List.any_eq_true.mpr ⟨'(', h, by decide⟩
      · exact List.any_eq_true.mpr ⟨')', h, by decide⟩
      · rcases List.any_eq_true.mp h with ⟨c, hc, hws⟩
        exact List.any_eq_true.mpr ⟨c, hc, by simp [isWsParChar, isWsChar] at hws ⊢; simp [hws]⟩
    simp [_quote_if_contains, hany]
  · intro k b
    have := escGo_replicate k b 0
    simpa [escQuotes] using this
  · intro c b hc hq
    simp [escQuotes, escGo, hc, hq]

/-- Witness for C8 at concrete arguments: a clean argument stays verbatim,
an argument with a space, an argument consisting of the file separator
U+001C (which the regex class `\s` matches) and a command with a
parenthesis are wrapped, a backslash run before a quote is doubled, and a
plain character passes through the escape unchanged. -/
theorem C8_nt_quoting_witness :
    _quote_if_contains isWsChar "abc".toList = "abc".toList
    ∧ _quote_if_contains isWsChar "a b".toList
      = '"' :: escQuotes "a b".toList ++ ['"']
    ∧ _quote_if_contains isWsChar ['\x1c']
      = '"' :: escQuotes ['\x1c'] ++ ['"']
    ∧ _quote_if_contains isWsParChar "c(d".toList
      = '"' :: escQuotes "c(d".toList ++ ['"']
    ∧ escQuotes (List.replicate 1 '\\' ++ '"' :: "x".toList)
      = List.replicate 2 '\\' ++ '\\' :: '"' :: escQuotes "x".toList
    ∧ escQuotes ('a' :: "y".toList) = 'a' :: escQuotes "y".toList :=
  ⟨C8_nt_quoting.1 _ (by decide),
   C8_nt_quoting.2.1 _ (by decide),
   C8_nt_quoting.2.1 ['\x1c'] (by decide),
   C8_nt_quoting.2.2.2.1 _ (Or.inl (by decide)),
   C8_nt_quoting.2.2.2.2.1 1 "x".toList,
   C8_nt_quoting.2.2.2.2.2.1 'a' "y".toList (by decide) (by decide)⟩
